import Mathlib

/-!
Shallow embedding of the job-lifecycle and cache-eviction core of the
mangadex-dl web UI repository (app/cleanup.py and app/cache.py), together
with proofs about the claims on that core.

Modelling conventions:
* Filesystem paths under the cache root are lists of path segments
  (the path a/b.cbz is [a, b.cbz]); the cache root itself is the empty list.
* Machine text is Lean String; the Python str primitives used by the code
  (endswith, startswith, split on a one-character separator, replace of a
  one-character pattern) are re-implemented over the character data so that
  they are executable by the kernel.
* Fallible effects (reading an RQ job status or result from Redis, fetching
  a job) are Except Unit values: Except.error means the read raised.
* Wall-clock instants and file modification times are integers; python
  floats only ever enter the code through subtraction and one strict
  comparison, which Int models exactly.
* Deleting a file with os.remove and a directory tree with shutil.rmtree is
  modelled as always succeeding; the swallowed PermissionError branches of
  the source keep the file and do not count it, which matches a run in
  which no I/O error occurs.
-/

namespace MangadexDL

/-- Embedding of Python s.endswith(suf) over character data. -/
def pyEndsWith (s suf : String) : Bool :=
  suf.data.isSuffixOf s.data

/-- Embedding of Python s.startswith(pre) over character data. -/
def pyStartsWith (s pre : String) : Bool :=
  pre.data.isPrefixOf s.data

/-- Accumulator loop for splitting a character list at a separator. -/
def splitOnCharAux (c : Char) : List Char → List Char → List (List Char)
  | [], cur => [cur.reverse]
  | x :: xs, cur =>
    if x = c then cur.reverse :: splitOnCharAux c xs []
    else splitOnCharAux c xs (x :: cur)

/-- Embedding of Python s.split(sep) for the one-character separator used by
cleanup_temp_dirs; like Python, "".split(sep) is [""] and separators are not
collapsed. -/
def pySplit (s : String) (c : Char) : List String :=
  (splitOnCharAux c s.data []).map List.asString

/-- Embedding of Python s.replace(a, b) for the one-character pattern and
replacement used to build sanitized_name. -/
def pyReplaceChar (s : String) (a b : Char) : String :=
  List.asString (s.data.map (fun ch => if ch = a then b else ch))

/-- Worker for pyDedup: keep an element exactly when it was not seen yet. -/
def pyDedupAux (seen : List String) : List String → List String
  | [] => []
  | x :: xs =>
    if seen.contains x then pyDedupAux seen xs
    else x :: pyDedupAux (x :: seen) xs

/-- Embedding of list(dict.fromkeys(l)): drop every later duplicate, keeping
the first occurrence of each element in order. -/
def pyDedup (l : List String) : List String :=
  pyDedupAux [] l

/-- A path under the cache root, as a list of segments. -/
abbrev FsPath := List String

/-- d is a strict ancestor directory of path p. -/
def strictUnder (d p : FsPath) : Bool :=
  d.isPrefixOf p && decide (d.length < p.length)

/-- p is an immediate child entry of directory d. -/
def directChild (d p : FsPath) : Bool :=
  d.isPrefixOf p && decide (p.length = d.length + 1)

/-- The rglob("*.cbz") test: the file name (last segment) ends in .cbz. -/
def isCbz (p : FsPath) : Bool :=
  match p.getLast? with
  | some s => pyEndsWith s (".cbz")
  | none => false

/-! ## app/cleanup.py: get_active_job_files -/

/-- An RQ job as get_active_job_files sees it: reading the status
(job.get_status, a Redis round trip) and reading the result property may
each raise; a result that is absent or not a list is Option.none. -/
structure RqJob where
  status : Except Unit String
  result : Except Unit (Option (List FsPath))

/-- The body of the loop in get_active_job_files for one job: a raise from
either read is caught by the bare except and contributes nothing, an active
status contributes the job result when that is a list. -/
def jobActiveFiles (job : RqJob) : List FsPath :=
  match job.status with
  | Except.error _ => []
  | Except.ok s =>
    if s = ("queued") ∨ s = ("started") ∨ s = ("deferred") then
      match job.result with
      | Except.error _ => []
      | Except.ok none => []
      | Except.ok (some files) => files
    else []

/-- get_active_job_files: concatenation of every job contribution, in queue
order (the Python loop extends one shared list). -/
def get_active_job_files (jobs : List RqJob) : List FsPath :=
  jobs.flatMap jobActiveFiles

/-! ## app/cleanup.py: cleanup_cache -/

/-- Snapshot of the cache directory tree: the regular files with their
st_mtime, and the directories strictly below the cache root. -/
structure CacheFS where
  files : List (FsPath × Int)
  dirs : List FsPath

/-- The first-pass removal test of cleanup_cache for one file: it was
produced by rglob("*.cbz"), its path is not in the active set, and
now - st_mtime strictly exceeds ttl. -/
def expiredUnreferenced (active : List FsPath) (now ttl : Int) (f : FsPath × Int) : Bool :=
  isCbz f.1 && !(active.contains f.1) && decide (ttl < now - f.2)

/-- rmdir semantics: the call fails (OSError) exactly when the directory
still has an immediate child, either a file or a subdirectory. -/
def dirNonempty (files : List (FsPath × Int)) (dirs : List FsPath) (d : FsPath) : Bool :=
  files.any (fun f => directChild d f.1) || dirs.any (fun e => directChild d e)

/-- One iteration of the second pass of cleanup_cache: skip the cache root
(dir_path != cache_path), try rmdir, and on OSError keep the directory. -/
def pruneStep (files : List (FsPath × Int)) (cur : List FsPath) (d : FsPath) : List FsPath :=
  if d = [] then cur
  else if dirNonempty files cur d then cur
  else cur.erase d

/-- Insert a directory into a list already ordered by strictly decreasing
depth preference, before the first entry at most as deep. -/
def insertByDepth (d : FsPath) : List FsPath → List FsPath
  | [] => [d]
  | e :: es => if e.length ≤ d.length then d :: e :: es else e :: insertByDepth d es

/-- Sort directories by number of path parts, deepest first, as
sorted(..., key=len(parts), reverse=True) orders them.  Entries of equal
depth are never ancestors of one another, so their relative order cannot
change which rmdir calls succeed. -/
def sortByDepthDesc : List FsPath → List FsPath
  | [] => []
  | d :: ds => insertByDepth d (sortByDepthDesc ds)

/-- Second pass of cleanup_cache: walk the directories deepest first and
rmdir each empty one. -/
def pruneDirs (files : List (FsPath × Int)) (dirs : List FsPath) : List FsPath :=
  (sortByDepthDesc dirs).foldl (pruneStep files) dirs

/-- The ttl ≠ 0 branch of cleanup_cache on an existing cache root: remove
every expired unreferenced .cbz file counting the removals, then prune the
emptied directories.  The third pass of the source, cleanup_stale_metadata
wrapped in contextlib.suppress, touches only the Redis metadata store
(modelled separately below) and neither the tree nor the returned count. -/
def sweepBody (active : List FsPath) (fs : CacheFS) (ttl now : Int) : CacheFS × Nat :=
  let kept := fs.files.filter (fun f => !expiredUnreferenced active now ttl f)
  (⟨kept, pruneDirs kept fs.dirs⟩, fs.files.countP (expiredUnreferenced active now ttl))

/-- cleanup_cache(cache_dir, ttl): none models a cache root that does not
exist (the early return 0), ttl = 0 is the explicit never-expire early
return, and otherwise the two sweep passes run against the active set
computed from the queue. -/
def cleanup_cache (jobs : List RqJob) (root : Option CacheFS) (ttl now : Int) :
    Option CacheFS × Nat :=
  match root with
  | none => (none, 0)
  | some fs =>
    if ttl = 0 then (some fs, 0)
    else
      let r := sweepBody (get_active_job_files jobs) fs ttl now
      (some r.1, r.2)

/-- Well-formed cache snapshot, as any tree produced by a real filesystem
walk is: the directory list has no duplicates, and every proper nonempty
prefix of a file path is a listed directory. -/
structure CacheFS.WF (fs : CacheFS) : Prop where
  nodup_dirs : fs.dirs.Nodup
  file_ancestors : ∀ f ∈ fs.files, ∀ n, n < f.1.length → 0 < n → f.1.take n ∈ fs.dirs

/-! ## app/cleanup.py: is_job_completed and cleanup_temp_dirs -/

/-- A job as Job.fetch returns it: only the status read matters here, and it
may raise. -/
structure FetchedJob where
  status : Except Unit String

/-- The registry behind Job.fetch: fetching may raise (Except.error), return
no job (none), or return a job. -/
abbrev JobRegistry := String → Except Unit (Option FetchedJob)

/-- is_job_completed(job_id): missing jobs and any raise (from fetch or from
the status read) are treated as completed; otherwise completed means the
status string is finished or failed. -/
def is_job_completed (reg : JobRegistry) (job_id : String) : Bool :=
  match reg job_id with
  | Except.error _ => true
  | Except.ok none => true
  | Except.ok (some job) =>
    match job.status with
    | Except.error _ => true
    | Except.ok s => s = ("finished") || s = ("failed")

/-- An immediate entry of the temp directory: its name and whether it is a
directory. -/
structure TempEntry where
  name : String
  isDir : Bool
deriving DecidableEq

/-- The per-entry decision of cleanup_temp_dirs: only directories whose name
starts with "job-" and splits on "-" into at least three parts are
candidates; the job id is the last part, and the directory is removed when
is_job_completed holds for it. -/
def shouldRemoveTempDir (reg : JobRegistry) (e : TempEntry) : Bool :=
  if e.isDir = false then false
  else if pyStartsWith e.name ("job-") = false then false
  else
    let parts := pySplit e.name ('-')
    if parts.length < 3 then false
    else is_job_completed reg (parts.getLastD (""))

/-- cleanup_temp_dirs: keep every entry the decision spares, return the
surviving entries and the number removed (shutil.rmtree modelled as always
succeeding). -/
def cleanup_temp_dirs (reg : JobRegistry) (entries : List TempEntry) :
    List TempEntry × Nat :=
  (entries.filter (fun e => !shouldRemoveTempDir reg e),
   entries.countP (shouldRemoveTempDir reg))

/-! ## app/cache.py: store_manga_metadata -/

/-- The Redis hash written for one series, with the files field decoded from
its JSON form (store_manga_metadata always writes valid JSON, so the
json.loads failure branch of the source is unreachable against this
store). -/
structure SeriesRecord where
  url : String
  name : String
  sanitized_name : String
  cache_path : String
  download_date : String
  files : List String
deriving DecidableEq

/-- The merge step of store_manga_metadata: hget(key, "files") returning a
value (any stored JSON list, empty included, is a truthy string) merges via
list(dict.fromkeys(existing + files)); an absent key stores files as is. -/
def mergedFiles (existing : Option (List String)) (files : List String) : List String :=
  match existing with
  | some ex => pyDedup (ex ++ files)
  | none => files

/-- The hash written by the hset call of store_manga_metadata, given the
already-merged files value; now is the datetime.now(UTC).isoformat() text. -/
def storedRecord (url series_name cache_path now : String) (merged : List String) :
    SeriesRecord :=
  { url := url
    name := series_name
    sanitized_name := pyReplaceChar series_name ('_') (' ')
    cache_path := cache_path
    download_date := now
    files := merged }

/-- store_manga_metadata on the hash of one series: read the existing files
field, merge, and overwrite the whole hash. -/
def store_manga_metadata (st : Option SeriesRecord) (url series_name cache_path : String)
    (files : List String) (now : String) : Option SeriesRecord :=
  some (storedRecord url series_name cache_path now
    (mergedFiles (st.map SeriesRecord.files) files))

/-- The arguments of one in-flight store_manga_metadata call. -/
structure MergeCall where
  url : String
  series_name : String
  cache_path : String
  files : List String
  now : String

/-- The four atomic Redis commands two concurrent store_manga_metadata calls
A and B are made of: each call is its hget followed by its hset. -/
inductive MergeEvent where
  | readA
  | writeA
  | readB
  | writeB

/-- Interleaving state for two concurrent store_manga_metadata calls on the
same series key: the stored hash, and the files value each call has read so
far (none before its hget has run). -/
structure RaceState where
  store : Option SeriesRecord
  seenA : Option (Option (List String))
  seenB : Option (Option (List String))

/-- Effect of one atomic Redis command of call A or call B: each hget is a
snapshot read, each hset overwrites the hash computed from that snapshot.
A write scheduled before its own read is a no-op, so only schedules that
order each call's read before its write are meaningful. -/
def mergeStep (a b : MergeCall) (st : RaceState) : MergeEvent → RaceState
  | MergeEvent.readA => { st with seenA := some (st.store.map SeriesRecord.files) }
  | MergeEvent.writeA =>
    match st.seenA with
    | none => st
    | some seen =>
      { st with store := some (storedRecord a.url a.series_name a.cache_path a.now
          (mergedFiles seen a.files)) }
  | MergeEvent.readB => { st with seenB := some (st.store.map SeriesRecord.files) }
  | MergeEvent.writeB =>
    match st.seenB with
    | none => st
    | some seen =>
      { st with store := some (storedRecord b.url b.series_name b.cache_path b.now
          (mergedFiles seen b.files)) }

/-- Run two concurrent store_manga_metadata calls under a given interleaving
of their Redis commands. -/
def runMerge (a b : MergeCall) (sched : List MergeEvent) (st : RaceState) : RaceState :=
  sched.foldl (mergeStep a b) st

/-! ## app/cache.py: cleanup_stale_metadata -/

/-- The per-record survival test of cleanup_stale_metadata: some listed,
nonempty file name still exists under the record cache_path (the generator
filters falsy names with "for f in files if f"); onDisk is the
Path(cache_path, f).exists() oracle. -/
def fileSurvives (onDisk : String → String → Bool) (r : SeriesRecord) : Bool :=
  r.files.any (fun f => decide (f ≠ ("")) && onDisk r.cache_path f)

/-- cleanup_stale_metadata over the full scan of cache:manga:* keys: delete
every record with no surviving file, keep the rest untouched, and return the
deletion count.  Entries model nonempty hashes; the "if not entry" branch of
the source only fires for a key deleted between scan and hgetall. -/
def cleanup_stale_metadata (onDisk : String → String → Bool)
    (entries : List (String × SeriesRecord)) : List (String × SeriesRecord) × Nat :=
  (entries.filter (fun e => fileSurvives onDisk e.2),
   entries.countP (fun e => !fileSurvives onDisk e.2))

/-- Sample stored record used by concrete witness instances: two listed
artifacts, of which only ch1.cbz still exists on disk. -/
def sampleStaleRecord : SeriesRecord :=
  { url := ("u")
    name := ("A")
    sanitized_name := ("A")
    cache_path := ("/c")
    download_date := ("t")
    files := [("gone.cbz"), ("ch1.cbz")] }

/-- Sample pre-existing record used by the store_manga_metadata witness. -/
def sampleOldRecord : SeriesRecord :=
  { url := ("u0")
    name := ("S")
    sanitized_name := ("S")
    cache_path := ("/c0")
    download_date := ("t0")
    files := [("ch1.cbz"), ("ch2.cbz")] }

/-! ## Helper lemmas -/

lemma contains_iff_mem {α : Type} [BEq α] [LawfulBEq α] {l : List α} {a : α} :
    l.contains a = true ↔ a ∈ l :=
  List.elem_iff

lemma isPrefixOf_iff {l₁ l₂ : FsPath} : l₁.isPrefixOf l₂ = true ↔ l₁ <+: l₂ :=
  List.isPrefixOf_iff_prefix

lemma strictUnder_iff {d p : FsPath} :
    strictUnder d p = true ↔ d <+: p ∧ d.length < p.length := by
  unfold strictUnder
  rw [Bool.and_eq_true, decide_eq_true_eq, isPrefixOf_iff]

lemma directChild_iff {d p : FsPath} :
    directChild d p = true ↔ d <+: p ∧ p.length = d.length + 1 := by
  unfold directChild
  rw [Bool.and_eq_true, decide_eq_true_eq, isPrefixOf_iff]

lemma strictUnder_of_directChild {d p : FsPath} (h : directChild d p = true) :
    strictUnder d p = true := by
  obtain ⟨h1, h2⟩ := directChild_iff.mp h
  exact strictUnder_iff.mpr ⟨h1, by omega⟩

lemma mem_pyDedupAux (y : String) : ∀ (l seen : List String),
    y ∈ pyDedupAux seen l ↔ y ∈ l ∧ y ∉ seen := by
  intro l
  induction l with
  | nil => intro seen; simp [pyDedupAux]
  | cons x xs ih =>
    intro seen
    unfold pyDedupAux
    by_cases h : seen.contains x = true
    · rw [if_pos h, ih seen]
      have hx : x ∈ seen := contains_iff_mem.mp h
      constructor
      · rintro ⟨h1, h2⟩
        exact ⟨List.mem_cons_of_mem _ h1, h2⟩
      · rintro ⟨h1, h2⟩
        rcases List.mem_cons.mp h1 with rfl | h1
        · exact absurd hx h2
        · exact ⟨h1, h2⟩
    · rw [if_neg h]
      have hx : x ∉ seen := fun hmem => h (contains_iff_mem.mpr hmem)
      rw [List.mem_cons, ih (x :: seen)]
      constructor
      · rintro (rfl | ⟨h1, h2⟩)
        · exact ⟨List.mem_cons_self _ _, hx⟩
        · refine ⟨List.mem_cons_of_mem _ h1, fun hm => h2 (List.mem_cons_of_mem _ hm)⟩
      · rintro ⟨h1, h2⟩
        by_cases hyx : y = x
        · exact Or.inl hyx
        · right
          refine ⟨?_, ?_⟩
          · rcases List.mem_cons.mp h1 with h1 | h1
            · exact absurd h1 hyx
            · exact h1
          · intro hm
            rcases List.mem_cons.mp hm with hm | hm
            · exact hyx hm
            · exact h2 hm

lemma nodup_pyDedupAux : ∀ (l seen : List String), (pyDedupAux seen l).Nodup := by
  intro l
  induction l with
  | nil => intro seen; simp [pyDedupAux]
  | cons x xs ih =>
    intro seen
    unfold pyDedupAux
    split
    · exact ih seen
    · refine List.nodup_cons.mpr ⟨?_, ih (x :: seen)⟩
      intro hmem
      exact ((mem_pyDedupAux x xs (x :: seen)).mp hmem).2 (List.mem_cons_self _ _)

lemma mem_pyDedup {y : String} {l : List String} : y ∈ pyDedup l ↔ y ∈ l := by
  unfold pyDedup
  rw [mem_pyDedupAux]
  simp

lemma nodup_pyDedup (l : List String) : (pyDedup l).Nodup :=
  nodup_pyDedupAux l []

lemma insertByDepth_perm (d : FsPath) :
    ∀ l : List FsPath, (insertByDepth d l).Perm (d :: l) := by
  intro l
  induction l with
  | nil => simp [insertByDepth]
  | cons e es ih =>
    unfold insertByDepth
    split
    · exact List.Perm.refl _
    · exact (ih.cons e).trans (List.Perm.swap d e es)

lemma sortByDepthDesc_perm : ∀ l : List FsPath, (sortByDepthDesc l).Perm l := by
  intro l
  induction l with
  | nil => exact List.Perm.refl _
  | cons d ds ih =>
    exact (insertByDepth_perm d (sortByDepthDesc ds)).trans (ih.cons d)

lemma pruneStep_subset (files : List (FsPath × Int)) (cur : List FsPath) (d : FsPath) :
    pruneStep files cur d ⊆ cur := by
  unfold pruneStep
  split
  · exact List.Subset.refl _
  · split
    · exact List.Subset.refl _
    · exact fun x hx => (List.erase_sublist _ _).subset hx

lemma pruneStep_nodup (files : List (FsPath × Int)) (cur : List FsPath) (d : FsPath)
    (h : cur.Nodup) : (pruneStep files cur d).Nodup := by
  unfold pruneStep
  split
  · exact h
  · split
    · exact h
    · exact h.erase d

lemma foldl_pruneStep_subset (files : List (FsPath × Int)) :
    ∀ (l cur : List FsPath), l.foldl (pruneStep files) cur ⊆ cur := by
  intro l
  induction l with
  | nil => intro cur; exact List.Subset.refl _
  | cons e rest ih =>
    intro cur x hx
    exact pruneStep_subset files cur e (ih (pruneStep files cur e) hx)

lemma dirNonempty_of_strictUnder (files : List (FsPath × Int)) (D0 cur : List FsPath)
    (e : FsPath)
    (hanc : ∀ f ∈ files, ∀ d : FsPath, d ≠ [] → d <+: f.1 → d ≠ f.1 → d ∈ D0)
    (hinv : ∀ d ∈ D0, (∃ f ∈ files, strictUnder d f.1 = true) → d ∈ cur)
    (hocc : ∃ f ∈ files, strictUnder e f.1 = true) :
    dirNonempty files cur e = true := by
  obtain ⟨f, hf, hsu⟩ := hocc
  obtain ⟨hpre, hlt⟩ := strictUnder_iff.mp hsu
  unfold dirNonempty
  rw [Bool.or_eq_true]
  by_cases hlen : f.1.length = e.length + 1
  · left
    rw [List.any_eq_true]
    exact ⟨f, hf, directChild_iff.mpr ⟨hpre, hlen⟩⟩
  · right
    rw [List.any_eq_true]
    have hlt2 : e.length + 1 < f.1.length := by omega
    refine ⟨f.1.take (e.length + 1), ?_, ?_⟩
    · have hclen : (f.1.take (e.length + 1)).length = e.length + 1 := by
        rw [List.length_take]
        omega
      have hcpre : f.1.take (e.length + 1) <+: f.1 :=
        ⟨f.1.drop (e.length + 1), List.take_append_drop _ _⟩
      have hcne_nil : f.1.take (e.length + 1) ≠ [] := by
        intro hc
        rw [hc] at hclen
        simp at hclen
      have hcne : f.1.take (e.length + 1) ≠ f.1 := by
        intro hc
        rw [hc] at hclen
        omega
      have hcD0 : f.1.take (e.length + 1) ∈ D0 := hanc f hf _ hcne_nil hcpre hcne
      refine hinv _ hcD0 ⟨f, hf, strictUnder_iff.mpr ⟨hcpre, ?_⟩⟩
      omega
    · rw [directChild_iff]
      constructor
      · rw [List.prefix_iff_eq_take] at hpre ⊢
        rw [List.take_take]
        have : min e.length (e.length + 1) = e.length := by omega
        rw [this]
        exact hpre
      · rw [List.length_take]
        omega

lemma foldl_pruneStep_keeps (files : List (FsPath × Int)) (D0 : List FsPath)
    (hanc : ∀ f ∈ files, ∀ d : FsPath, d ≠ [] → d <+: f.1 → d ≠ f.1 → d ∈ D0) :
    ∀ (l cur : List FsPath),
      (∀ d ∈ D0, (∃ f ∈ files, strictUnder d f.1 = true) → d ∈ cur) →
      ∀ d ∈ D0, (∃ f ∈ files, strictUnder d f.1 = true) →
        d ∈ l.foldl (pruneStep files) cur := by
  intro l
  induction l with
  | nil =>
    intro cur hinv d hd hocc
    exact hinv d hd hocc
  | cons e rest ih =>
    intro cur hinv
    apply ih
    intro d hd hocc
    have hcur := hinv d hd hocc
    unfold pruneStep
    split
    · exact hcur
    · split
      · exact hcur
      · rename_i hempty
        have hde : d ≠ e := by
          intro hc
          subst hc
          exact hempty (dirNonempty_of_strictUnder files D0 cur d hanc hinv hocc)
        exact (List.mem_erase_of_ne hde).mpr hcur

lemma foldl_pruneStep_removes_leaf (files : List (FsPath × Int)) (D0 : List FsPath)
    (q : FsPath) (hq : q ≠ [])
    (hnofile : ∀ f ∈ files, strictUnder q f.1 = false)
    (hnodir : ∀ e ∈ D0, strictUnder q e = false) :
    ∀ (l cur : List FsPath), cur ⊆ D0 → cur.Nodup → q ∈ l →
      q ∉ l.foldl (pruneStep files) cur := by
  intro l
  induction l with
  | nil =>
    intro cur _ _ h
    exact absurd h (List.not_mem_nil q)
  | cons e rest ih =>
    intro cur hsub hnd hql
    by_cases hqe : q = e
    · subst hqe
      have hempty : ¬ dirNonempty files cur q = true := by
        unfold dirNonempty
        rw [Bool.or_eq_true]
        rintro (hany | hany)
        · obtain ⟨f, hf, hdc⟩ := List.any_eq_true.mp hany
          have h2 := strictUnder_of_directChild hdc
          rw [hnofile f hf] at h2
          exact Bool.false_ne_true h2
        · obtain ⟨e', he', hdc⟩ := List.any_eq_true.mp hany
          have h2 := strictUnder_of_directChild hdc
          rw [hnodir e' (hsub he')] at h2
          exact Bool.false_ne_true h2
      have hstep : pruneStep files cur q = cur.erase q := by
        unfold pruneStep
        rw [if_neg hq, if_neg hempty]
      rw [List.foldl_cons, hstep]
      intro hmem
      have hin := foldl_pruneStep_subset files rest (cur.erase q) hmem
      exact absurd ((hnd.mem_erase_iff).mp hin).1 (by simp)
    · have hql' : q ∈ rest := by
        rcases List.mem_cons.mp hql with hc | hc
        · exact absurd hc hqe
        · exact hc
      exact ih (pruneStep files cur e)
        (fun x hx => hsub (pruneStep_subset files cur e hx))
        (pruneStep_nodup files cur e hnd) hql'

lemma CacheFS.WF.anc {fs : CacheFS} (h : fs.WF) :
    ∀ f ∈ fs.files, ∀ d : FsPath, d ≠ [] → d <+: f.1 → d ≠ f.1 → d ∈ fs.dirs := by
  intro f hf d hne hpre hneq
  have hle := hpre.length_le
  have hdlen : d.length < f.1.length := by
    rcases Nat.lt_or_ge d.length f.1.length with h1 | h1
    · exact h1
    · exact absurd (hpre.eq_of_length (by omega)) hneq
  have h0 : 0 < d.length := List.length_pos.mpr hne
  have hd : d = f.1.take d.length := List.prefix_iff_eq_take.mp hpre
  rw [hd]
  exact h.file_ancestors f hf d.length hdlen h0

lemma length_filter_not_add_countP {α : Type} (p : α → Bool) (l : List α) :
    (l.filter (fun a => !p a)).length + l.countP p = l.length := by
  induction l with
  | nil => simp
  | cons x xs ih =>
    by_cases h : p x = true <;>
      simp [List.filter_cons, List.countP_cons, h] <;> omega

lemma cleanup_cache_eq (jobs : List RqJob) (fs : CacheFS) {ttl : Int} (now : Int)
    (h : ttl ≠ 0) :
    cleanup_cache jobs (some fs) ttl now =
      (some (sweepBody (get_active_job_files jobs) fs ttl now).1,
       (sweepBody (get_active_job_files jobs) fs ttl now).2) := by
  simp [cleanup_cache, h]

lemma shouldRemoveTempDir_iff (reg : JobRegistry) (e : TempEntry) :
    shouldRemoveTempDir reg e = true ↔
      e.isDir = true ∧ pyStartsWith e.name ("job-") = true ∧
      3 ≤ (pySplit e.name ('-')).length ∧
      is_job_completed reg ((pySplit e.name ('-')).getLastD ("")) = true := by
  unfold shouldRemoveTempDir
  by_cases h1 : e.isDir = false
  · rw [if_pos h1]
    simp [h1]
  · rw [if_neg h1]
    rw [Bool.not_eq_false] at h1
    by_cases h2 : pyStartsWith e.name ("job-") = false
    · rw [if_pos h2]
      simp [h1, h2]
    · rw [if_neg h2]
      rw [Bool.not_eq_false] at h2
      by_cases h3 : (pySplit e.name ('-')).length < 3
      · rw [if_pos h3]
        simp only [h1, h2, true_and]
        constructor
        · intro hc
          exact absurd hc (by simp)
        · rintro ⟨hlen, _⟩
          omega
      · rw [if_neg h3]
        simp [h1, h2]
        omega

lemma fileSurvives_iff (onDisk : String → String → Bool) (r : SeriesRecord) :
    fileSurvives onDisk r = true ↔
      ∃ f ∈ r.files, f ≠ ("") ∧ onDisk r.cache_path f = true := by
  unfold fileSurvives
  rw [List.any_eq_true]
  constructor
  · rintro ⟨f, hf, hp⟩
    rw [Bool.and_eq_true, decide_eq_true_eq] at hp
    exact ⟨f, hf, hp⟩
  · rintro ⟨f, hf, h1, h2⟩
    refine ⟨f, hf, ?_⟩
    rw [Bool.and_eq_true, decide_eq_true_eq]
    exact ⟨h1, h2⟩

lemma runMerge_serial_eq (a b : MergeCall) (st : Option SeriesRecord) :
    (runMerge a b [MergeEvent.readA, MergeEvent.writeA, MergeEvent.readB, MergeEvent.writeB]
      ⟨st, none, none⟩).store =
    store_manga_metadata
      (store_manga_metadata st a.url a.series_name a.cache_path a.files a.now)
      b.url b.series_name b.cache_path b.files b.now := rfl

/-! ## Claim theorems -/

/-- Claim C1: a file whose path is in the active-reference set computed by
get_active_job_files (the union of the result lists of the queued, started
and deferred jobs) is never deleted by cleanup_cache, regardless of its age
relative to the TTL. -/
theorem cleanup_cache_protects_active (jobs : List RqJob) (fs : CacheFS)
    (ttl now : Int) (p : FsPath) (m : Int)
    (hmem : (p, m) ∈ fs.files) (hact : p ∈ get_active_job_files jobs) :
    ∃ fs', (cleanup_cache jobs (some fs) ttl now).1 = some fs' ∧
      (p, m) ∈ fs'.files := by
  by_cases httl : ttl = 0
  · subst httl
    exact ⟨fs, by simp [cleanup_cache], hmem⟩
  · rw [cleanup_cache_eq jobs fs now httl]
    refine ⟨_, rfl, ?_⟩
    show (p, m) ∈ (sweepBody (get_active_job_files jobs) fs ttl now).1.files
    simp only [sweepBody]
    rw [List.mem_filter]
    refine ⟨hmem, ?_⟩
    simp only [expiredUnreferenced]
    simp
    exact Or.inl (Or.inr hact)

/-- Witness for claim C1: an old file owned by a started job survives an
expired-TTL sweep. -/
theorem cleanup_cache_protects_active_witness :
    ∃ fs', (cleanup_cache
        [⟨Except.ok ("started"), Except.ok (some [[("s"), ("a.cbz")]])⟩]
        (some ⟨[([("s"), ("a.cbz")], 0)], [[("s")]]⟩) 604800 691200).1 = some fs' ∧
      ([("s"), ("a.cbz")], (0 : Int)) ∈ fs'.files :=
  cleanup_cache_protects_active _ _ _ _ _ _ (by decide) (by decide)

/-- Claim C7: with ttl = 0 the sweep is a no-op for every cache state: no
file and no directory is removed and the returned count is 0. -/
theorem cleanup_cache_ttl_zero_noop (jobs : List RqJob) (root : Option CacheFS)
    (now : Int) :
    cleanup_cache jobs root 0 now = (root, 0) := by
  cases root <;> simp [cleanup_cache]

/-- Claim C9: the sweep is idempotent: run again at the same instant with
the same queue and ttl on the state it produced, cleanup_cache removes 0
files. -/
theorem cleanup_cache_idempotent (jobs : List RqJob) (root : Option CacheFS)
    (ttl now : Int) :
    (cleanup_cache jobs (cleanup_cache jobs root ttl now).1 ttl now).2 = 0 := by
  cases root with
  | none => simp [cleanup_cache]
  | some fs =>
    by_cases httl : ttl = 0
    · subst httl
      simp [cleanup_cache]
    · rw [cleanup_cache_eq jobs fs now httl,
        cleanup_cache_eq jobs ((sweepBody (get_active_job_files jobs) fs ttl now).1) now httl]
      simp only [sweepBody]
      rw [List.countP_eq_zero]
      intro f hf
      rw [List.mem_filter] at hf
      simp only [Bool.not_eq_true'] at hf
      simp [hf.2]

/-- Claim C10: the sweep only deletes .cbz files: a file whose name does not
end in .cbz survives regardless of age and reference status, and the cache
root itself (the some constructor of the returned state) is never removed. -/
theorem cleanup_cache_frame (jobs : List RqJob) (fs : CacheFS) (ttl now : Int)
    (p : FsPath) (m : Int)
    (hmem : (p, m) ∈ fs.files) (hcbz : isCbz p = false) :
    ∃ fs', (cleanup_cache jobs (some fs) ttl now).1 = some fs' ∧
      (p, m) ∈ fs'.files := by
  by_cases httl : ttl = 0
  · subst httl
    exact ⟨fs, by simp [cleanup_cache], hmem⟩
  · rw [cleanup_cache_eq jobs fs now httl]
    refine ⟨_, rfl, ?_⟩
    show (p, m) ∈ (sweepBody (get_active_job_files jobs) fs ttl now).1.files
    simp only [sweepBody]
    rw [List.mem_filter]
    exact ⟨hmem, by simp [expiredUnreferenced, hcbz]⟩

/-- Witness for claim C10: a non-.cbz file older than the TTL survives. -/
theorem cleanup_cache_frame_witness :
    ∃ fs', (cleanup_cache []
        (some ⟨[([("notes.txt")], 0)], []⟩) 10 100).1 = some fs' ∧
      ([("notes.txt")], (0 : Int)) ∈ fs'.files :=
  cleanup_cache_frame _ _ _ _ _ _ (by decide) (by decide)

/-- Claim C8: an unreferenced .cbz file strictly older than a positive ttl
is deleted; the count returned accounts exactly for the files removed; a
directory that still holds a surviving file anywhere beneath it is kept;
and a directory (such as the removed file's parent) left with no surviving
file and no subdirectory is pruned. -/
theorem cleanup_cache_evicts_expired (jobs : List RqJob) (fs : CacheFS)
    (ttl now : Int) (p : FsPath) (m : Int)
    (hwf : fs.WF) (httl : 0 < ttl)
    (hmem : (p, m) ∈ fs.files) (hcbz : isCbz p = true)
    (hact : p ∉ get_active_job_files jobs) (hage : ttl < now - m) :
    ∃ fs', (cleanup_cache jobs (some fs) ttl now).1 = some fs' ∧
      (p, m) ∉ fs'.files ∧
      fs'.files.length + (cleanup_cache jobs (some fs) ttl now).2 = fs.files.length ∧
      (∀ d ∈ fs.dirs, (∃ f ∈ fs'.files, strictUnder d f.1 = true) → d ∈ fs'.dirs) ∧
      (∀ q ∈ fs.dirs, q ≠ [] → (∀ f ∈ fs'.files, strictUnder q f.1 = false) →
        (∀ e ∈ fs.dirs, strictUnder q e = false) → q ∉ fs'.dirs) := by
  have httl' : ttl ≠ 0 := by omega
  rw [cleanup_cache_eq jobs fs now httl']
  refine ⟨_, rfl, ?_, ?_, ?_, ?_⟩
  · -- the expired unreferenced file is gone
    show (p, m) ∉ (sweepBody (get_active_job_files jobs) fs ttl now).1.files
    simp only [sweepBody]
    intro hin
    rw [List.mem_filter] at hin
    have hcont : (get_active_job_files jobs).contains p = false :=
      Bool.eq_false_iff.mpr (fun hc => hact (contains_iff_mem.mp hc))
    have : expiredUnreferenced (get_active_job_files jobs) now ttl (p, m) = true := by
      simp [expiredUnreferenced, hcbz, hcont, hage]
      exact hact
    rw [this] at hin
    exact Bool.false_ne_true (by simpa using hin.2)
  · -- count accounting
    show (sweepBody (get_active_job_files jobs) fs ttl now).1.files.length +
      (sweepBody (get_active_job_files jobs) fs ttl now).2 = fs.files.length
    simp only [sweepBody]
    exact length_filter_not_add_countP _ _
  · -- occupied directories survive
    intro d hd hocc
    show d ∈ (sweepBody (get_active_job_files jobs) fs ttl now).1.dirs
    simp only [sweepBody] at hocc ⊢
    unfold pruneDirs
    refine foldl_pruneStep_keeps _ fs.dirs ?_ _ fs.dirs (fun d hd _ => hd) d hd hocc
    intro f hf
    exact hwf.anc f ((List.filter_sublist fs.files).subset hf)
  · -- emptied leaf directories are pruned
    intro q hq hqnil hnofile hnodir
    show q ∉ (sweepBody (get_active_job_files jobs) fs ttl now).1.dirs
    simp only [sweepBody] at hnofile ⊢
    unfold pruneDirs
    refine foldl_pruneStep_removes_leaf _ fs.dirs q hqnil hnofile hnodir _ fs.dirs
      (List.Subset.refl _) hwf.nodup_dirs ?_
    exact (sortByDepthDesc_perm fs.dirs).mem_iff.mpr hq

/-- Witness for claim C8: a week-old unreferenced archive is removed with
count 1, its emptied series directory is pruned, and the directory of a
fresh archive survives. -/
theorem cleanup_cache_evicts_expired_witness :
    ∃ fs', (cleanup_cache []
        (some ⟨[([("s"), ("a.cbz")], 0), ([("t"), ("b.cbz")], 600000)],
          [[("s")], [("t")]]⟩) 604800 691200).1 = some fs' ∧
      ([("s"), ("a.cbz")], (0 : Int)) ∉ fs'.files ∧
      fs'.files.length + (cleanup_cache []
        (some ⟨[([("s"), ("a.cbz")], 0), ([("t"), ("b.cbz")], 600000)],
          [[("s")], [("t")]]⟩) 604800 691200).2 = 2 ∧
      (∀ d ∈ [[("s")], [("t")]], (∃ f ∈ fs'.files, strictUnder d f.1 = true) →
        d ∈ fs'.dirs) ∧
      (∀ q ∈ [[("s")], [("t")]], q ≠ [] → (∀ f ∈ fs'.files, strictUnder q f.1 = false) →
        (∀ e ∈ [[("s")], [("t")]], strictUnder q e = false) → q ∉ fs'.dirs) :=
  cleanup_cache_evicts_expired [] _ 604800 691200 [("s"), ("a.cbz")] 0
    ⟨by decide, by decide⟩ (by decide) (by decide) (by decide) (by decide) (by decide)

/-- Claim C3, refuted by the code: the bare except in get_active_job_files
skips a job whose status read raises, so its result files get no protection;
at this input the only job is unreadable, its file old.cbz is a week old
under a 10 second ttl, and the sweep deletes it and returns 1 where the
claim requires the file to be kept. -/
theorem unreadable_job_file_evicted :
    cleanup_cache [⟨Except.error (), Except.ok (some [[("old.cbz")]])⟩]
      (some ⟨[([("old.cbz")], 0)], []⟩) 10 100 = (some ⟨[], []⟩, 1) := rfl

/-- Claim C2, refuted by the code: store_manga_metadata is a nonatomic hget
followed by hset; under the interleaving readA, readB, writeA, writeB of two
calls with disjoint artifact sets on the same series, the later hset
overwrites the earlier one from a stale snapshot, the stored files end up as
b.cbz alone, and call A's artifact a.cbz is lost where the claim requires
the union of both contributions. -/
theorem concurrent_merge_loses_artifact :
    ((runMerge ⟨("u"), ("S"), ("/c"), [("a.cbz")], ("t1")⟩
        ⟨("u"), ("S"), ("/c"), [("b.cbz")], ("t2")⟩
        [MergeEvent.readA, MergeEvent.readB, MergeEvent.writeA, MergeEvent.writeB]
        ⟨none, none, none⟩).store.map SeriesRecord.files) = some [("b.cbz")] ∧
      ("a.cbz") ∉ [("b.cbz")] :=
  ⟨rfl, by decide⟩

/-- Claim C4, counterexample: the registry reports job abc as canceled — a
terminal state the claim says must make the reaper delete the directory —
yet cleanup_temp_dirs keeps job-x-abc and removes nothing, because
is_job_completed accepts only finished and failed. -/
theorem cancelled_job_temp_dir_kept :
    cleanup_temp_dirs
      (fun i => if i = ("abc") then Except.ok (some ⟨Except.ok ("canceled")⟩)
        else Except.ok none)
      [⟨("job-x-abc"), true⟩] = ([⟨("job-x-abc"), true⟩], 0) := rfl

/-- Claim C4 as amended: cleanup_temp_dirs removes an immediate entry of the
temp root iff it is a directory whose name matches the job-id convention
(starts with job-, splits on hyphens into at least three parts) and
is_job_completed holds for the trailing part: the status reads finished or
failed, or the job is missing or unreadable.  A cancelled job is not
completed, so its directory is kept. -/
theorem cleanup_temp_dirs_removes_iff (reg : JobRegistry) (entries : List TempEntry)
    (e : TempEntry) (h : e ∈ entries) :
    e ∉ (cleanup_temp_dirs reg entries).1 ↔
      e.isDir = true ∧ pyStartsWith e.name ("job-") = true ∧
      3 ≤ (pySplit e.name ('-')).length ∧
      is_job_completed reg ((pySplit e.name ('-')).getLastD ("")) = true := by
  rw [← shouldRemoveTempDir_iff]
  unfold cleanup_temp_dirs
  constructor
  · intro hnot
    by_contra hc
    apply hnot
    rw [List.mem_filter]
    refine ⟨h, ?_⟩
    simp [Bool.eq_false_iff.mpr hc]
  · intro hshould hmem
    rw [List.mem_filter, hshould] at hmem
    simp at hmem

/-- Witness for the amended claim C4: the directory of a finished job is
removed. -/
theorem cleanup_temp_dirs_removes_iff_witness :
    (⟨("job-x-abc"), true⟩ : TempEntry) ∉
      (cleanup_temp_dirs (fun _ => Except.ok none) [⟨("job-x-abc"), true⟩]).1 :=
  (cleanup_temp_dirs_removes_iff _ _ _ (by decide)).mpr (by decide)

/-- Claim C5: cleanup_stale_metadata keeps a series record iff at least one
of its listed (nonempty-named) artifact files still exists under its
cache_path, equivalently removes it iff none does; kept records pass through
the filter unchanged and in order. -/
theorem cleanup_stale_metadata_keeps_iff (onDisk : String → String → Bool)
    (entries : List (String × SeriesRecord)) (k : String) (r : SeriesRecord)
    (h : (k, r) ∈ entries) :
    ((k, r) ∈ (cleanup_stale_metadata onDisk entries).1 ↔
      ∃ f ∈ r.files, f ≠ ("") ∧ onDisk r.cache_path f = true) ∧
    (cleanup_stale_metadata onDisk entries).1.Sublist entries := by
  constructor
  · rw [← fileSurvives_iff]
    unfold cleanup_stale_metadata
    rw [List.mem_filter]
    simp [h]
  · exact List.filter_sublist entries

/-- Witness for claim C5: a record with one surviving artifact out of two is
kept. -/
theorem cleanup_stale_metadata_keeps_iff_witness :
    (("cache:manga:A"), sampleStaleRecord) ∈
      (cleanup_stale_metadata (fun _ f => f == ("ch1.cbz"))
        [(("cache:manga:A"), sampleStaleRecord)]).1 :=
  ((cleanup_stale_metadata_keeps_iff _ _ _ _ (by decide)).1).mpr
    ⟨("ch1.cbz"), by decide, by decide, by decide⟩

/-- Claim C6: store_manga_metadata upserts: with no existing record it
stores the given files as is; with an existing record the stored files are
the duplicate-free union of old and new, and every scalar field (url, name,
cache_path, download_date) takes the latest write's value. -/
theorem store_manga_metadata_upserts (st : Option SeriesRecord)
    (url series_name cache_path : String) (files : List String) (now : String) :
    ∃ rec, store_manga_metadata st url series_name cache_path files now = some rec ∧
      rec.url = url ∧ rec.name = series_name ∧ rec.cache_path = cache_path ∧
      rec.download_date = now ∧
      (st = none → rec.files = files) ∧
      (∀ old, st = some old →
        rec.files.Nodup ∧ ∀ x, (x ∈ rec.files ↔ x ∈ old.files ∨ x ∈ files)) := by
  refine ⟨_, rfl, rfl, rfl, rfl, rfl, ?_, ?_⟩
  · intro hnone
    subst hnone
    rfl
  · intro old hsome
    subst hsome
    constructor
    · exact nodup_pyDedup _
    · intro x
      show x ∈ pyDedup (old.files ++ files) ↔ _
      rw [mem_pyDedup, List.mem_append]

/-- Witness for claim C6: merging ch2/ch3 into a record listing ch1/ch2
yields a duplicate-free store containing ch1, ch2 and ch3. -/
theorem store_manga_metadata_upserts_witness :
    ∃ rec, store_manga_metadata (some sampleOldRecord)
        ("u1") ("S") ("/c1") [("ch2.cbz"), ("ch3.cbz")] ("t1") = some rec ∧
      rec.files.Nodup ∧ ("ch1.cbz") ∈ rec.files ∧ ("ch2.cbz") ∈ rec.files ∧
      ("ch3.cbz") ∈ rec.files := by
  obtain ⟨rec, heq, _, _, _, _, _, hmerge⟩ := store_manga_metadata_upserts
    (some sampleOldRecord) ("u1") ("S") ("/c1") [("ch2.cbz"), ("ch3.cbz")] ("t1")
  obtain ⟨hnd, hmem⟩ := hmerge sampleOldRecord rfl
  exact ⟨rec, heq, hnd,
    (hmem _).mpr (Or.inl (by decide)),
    (hmem _).mpr (Or.inr (by decide)),
    (hmem _).mpr (Or.inr (by decide))⟩

end MangadexDL
